import Mathlib

/-!
Verification of the request-handling, catalog-management and file-streaming
core of the CitroenGames/Server music server (`src/server.cpp`) against its
natural-language specification.

The C++ code is shallowly embedded: bytes are natural numbers below 256,
`std::string` values are `String` or `List Char`, the filesystem is a total
function from paths to file states, and code that can throw returns `Except`.
-/

namespace MusicServer

/-- A byte is an ASCII hexadecimal digit (`0-9`, `A-F`, `a-f`).  This is the
character class `std::strtol` with base 16 accepts as a digit. -/
def isHexDigitB (c : Nat) : Bool :=
  decide ((48 ≤ c ∧ c ≤ 57) ∨ (65 ≤ c ∧ c ≤ 70) ∨ (97 ≤ c ∧ c ≤ 102))

/-- Numeric value of an ASCII hexadecimal digit. -/
def hexVal (c : Nat) : Nat :=
  if 48 ≤ c ∧ c ≤ 57 then c - 48
  else if 65 ≤ c ∧ c ≤ 70 then c - 55
  else if 97 ≤ c ∧ c ≤ 102 then c - 87
  else 0

/-- The bytes `isspace` accepts in the "C" locale (space and `\t`..`\r`),
which `std::strtol` skips before the number. -/
def isSpaceB (c : Nat) : Bool :=
  decide (c = 32 ∨ (9 ≤ c ∧ c ≤ 13))

/-- `std::strtol(s, nullptr, 16)` on a one-byte string `[b]`: the value of the
digit if `b` is a hexadecimal digit, otherwise 0 (no conversion). -/
def strtolHex1 (b : Nat) : Int :=
  if isHexDigitB b then (hexVal b : Int) else 0

/-- `std::strtol(s, nullptr, 16)` on the two-byte string `[a, b]` (the `hex`
substring `urlDecode` extracts): optional leading space, optional sign, then
hexadecimal digits; 0 when no digit can be consumed.  A `0x`/`0X` prefix with
no digit after it reduces to the subject sequence `0`, which the
`isHexDigitB a` branch already returns. -/
def strtolHex2 (a b : Nat) : Int :=
  if isSpaceB a then strtolHex1 b
  else if a = 43 then strtolHex1 b
  else if a = 45 then -(strtolHex1 b)
  else if isHexDigitB a then
    (if isHexDigitB b then (16 * hexVal a + hexVal b : Int) else (hexVal a : Int))
  else 0

/-- `static_cast<char>(std::strtol(hex.c_str(), nullptr, 16))` followed by
appending the `char` to a `std::string`: the result byte is the value reduced
modulo 256. -/
def strtolByte (a b : Nat) : Nat :=
  ((strtolHex2 a b) % 256).toNat

/-- `urlDecode` from `server.cpp` (lines 48-72), acting on the byte sequence
of the input string.  A `'%'` with at least two following bytes consumes them
through `strtol`; a `'%'` with fewer than two following bytes (`i + 2 <
value.length()` fails) is appended literally; `'+'` becomes a space; every
other byte is copied.  The final `toUtf8` reinterpret-cast does not change
the bytes. -/
def urlDecode : List Nat → List Nat
  | [] => []
  | [c] =>
    if c = 37 then [37]
    else if c = 43 then [32]
    else [c]
  | [c, d] =>
    if c = 37 then 37 :: urlDecode [d]
    else if c = 43 then 32 :: urlDecode [d]
    else c :: urlDecode [d]
  | c :: a :: b :: rest =>
    if c = 37 then strtolByte a b :: urlDecode rest
    else if c = 43 then 32 :: urlDecode (a :: b :: rest)
    else c :: urlDecode (a :: b :: rest)

/-- The byte sequence of an ASCII string literal. -/
def strBytes (s : String) : List Nat :=
  s.toList.map Char.toNat

theorem isHexDigitB_ranges {a : Nat} (h : isHexDigitB a = true) :
    (48 ≤ a ∧ a ≤ 57) ∨ (65 ≤ a ∧ a ≤ 70) ∨ (97 ≤ a ∧ a ≤ 102) := by
  simpa [isHexDigitB] using h

theorem hexVal_le {a : Nat} (h : isHexDigitB a = true) : hexVal a ≤ 15 := by
  rcases isHexDigitB_ranges h with hr | hr | hr <;>
    (unfold hexVal; split_ifs <;> omega)

theorem strtolHex2_hexhex {a b : Nat} (ha : isHexDigitB a = true)
    (hb : isHexDigitB b = true) :
    strtolHex2 a b = 16 * hexVal a + hexVal b := by
  have hr : (48 ≤ a ∧ a ≤ 57) ∨ (65 ≤ a ∧ a ≤ 70) ∨ (97 ≤ a ∧ a ≤ 102) :=
    isHexDigitB_ranges ha
  have hsp : isSpaceB a = false := by
    simp only [isSpaceB, decide_eq_false_iff_not]
    rcases hr with hr | hr | hr <;> omega
  have h43 : a ≠ 43 := by rcases hr with hr | hr | hr <;> omega
  have h45 : a ≠ 45 := by rcases hr with hr | hr | hr <;> omega
  unfold strtolHex2
  rw [hsp, if_neg h43, if_neg h45, if_pos ha, if_pos hb]
  simp

theorem strtolByte_hexhex {a b : Nat} (ha : isHexDigitB a = true)
    (hb : isHexDigitB b = true) :
    strtolByte a b = 16 * hexVal a + hexVal b := by
  have h2 := strtolHex2_hexhex ha hb
  have hla := hexVal_le ha
  have hlb := hexVal_le hb
  unfold strtolByte
  rw [h2]
  have hlt : (16 * (hexVal a : Int) + (hexVal b : Int)) < 256 := by
    have := hla; have := hlb; omega
  have hge : (0 : Int) ≤ 16 * (hexVal a : Int) + (hexVal b : Int) := by positivity
  rw [Int.emod_eq_of_lt hge hlt]
  omega

/-- C7: `urlDecode` maps each `'+'` to a space and each `'%'` followed by two
hexadecimal digits to the byte with that value (`My+Song` decodes to
`My Song`, `%2Fx` decodes to `/x`), and a `'%'` with fewer than two bytes
after it passes through literally as `'%'`. -/
theorem urlDecode_spec (rest : List Nat) (a b c : Nat)
    (ha : isHexDigitB a = true) (hb : isHexDigitB b = true) :
    urlDecode (43 :: rest) = 32 :: urlDecode rest
    ∧ urlDecode (37 :: a :: b :: rest) = (16 * hexVal a + hexVal b) :: urlDecode rest
    ∧ urlDecode [37] = [37]
    ∧ urlDecode [37, c] = 37 :: urlDecode [c]
    ∧ urlDecode (strBytes "My+Song") = strBytes "My Song"
    ∧ urlDecode (strBytes "%2Fx") = strBytes "/x" := by
  refine ⟨?_, ?_, by decide, by simp [urlDecode], by decide, by decide⟩
  · rcases rest with _ | ⟨x, _ | ⟨y, r⟩⟩ <;> simp [urlDecode]
  · simp [urlDecode, strtolByte_hexhex ha hb]

/-- C7 witness: the characterisation evaluated at `a = '2'`, `b = 'F'`,
`c = 'x'`, empty tail. -/
theorem urlDecode_spec_witness :
    isHexDigitB 50 = true ∧ isHexDigitB 70 = true ∧
    (urlDecode (43 :: []) = 32 :: urlDecode []
    ∧ urlDecode (37 :: 50 :: 70 :: []) = (16 * hexVal 50 + hexVal 70) :: urlDecode []
    ∧ urlDecode [37] = [37]
    ∧ urlDecode [37, 120] = 37 :: urlDecode [120]
    ∧ urlDecode (strBytes "My+Song") = strBytes "My Song"
    ∧ urlDecode (strBytes "%2Fx") = strBytes "/x") :=
  ⟨by decide, by decide, urlDecode_spec [] 50 70 120 (by decide) (by decide)⟩

/-- C9: a `'%'` followed by two bytes neither of which is a hexadecimal digit
is consumed whole, contributing the single byte `std::strtol` returns for the
two-byte string, which is 0 in this case (`%zz` contributes a NUL byte); the
three input bytes are not passed through. -/
theorem urlDecode_nonhex_strtol (a b : Nat) (rest : List Nat)
    (ha : isHexDigitB a = false) (hb : isHexDigitB b = false) :
    urlDecode (37 :: a :: b :: rest) = strtolByte a b :: urlDecode rest
    ∧ strtolByte a b = 0
    ∧ urlDecode [37, 122, 122] = [0] := by
  refine ⟨by simp [urlDecode], ?_, by decide⟩
  unfold strtolByte strtolHex2 strtolHex1
  rw [ha, hb]
  split_ifs <;> simp_all

/-- C9 witness: evaluated at `a = b = 'z'`. -/
theorem urlDecode_nonhex_strtol_witness :
    isHexDigitB 122 = false ∧
    (urlDecode (37 :: 122 :: 122 :: []) = strtolByte 122 122 :: urlDecode []
    ∧ strtolByte 122 122 = 0
    ∧ urlDecode [37, 122, 122] = [0]) :=
  ⟨by decide, urlDecode_nonhex_strtol 122 122 [] (by decide) (by decide)⟩

/-- The `TrackInfo` record (`TrackInfo.h`), with `std::u8string` fields as
`String` and the `int` duration as `Int`. -/
structure TrackInfo where
  id : String
  title : String
  artist : String
  album : String
  duration : Int
  filepath : String
  description_path : String
deriving DecidableEq, Repr

/-- `std::unordered_map<std::string, TrackInfo>::find`: association-list
lookup (the map holds at most one binding per key). -/
def findTrack : List (String × TrackInfo) → String → Option TrackInfo
  | [], _ => none
  | (k, v) :: rest, key => if k = key then some v else findTrack rest key

/-- What the filesystem holds at a path, from the point of view of
`fs::exists` followed by `std::ifstream::is_open`: the path may be absent,
present but unopenable, or present with the given byte contents. -/
inductive FileState where
  | absent
  | unopenable
  | present (bytes : List Nat)
deriving DecidableEq, Repr

/-- An HTTP response as assembled by `sendHttpHeader` plus the streamed body:
the status code, the content type handed to `sendHttpHeader`, the advertised
`Content-Length`, and the bytes actually sent after the header. -/
structure Response where
  status : Nat
  contentType : String
  contentLength : Nat
  body : List Nat
deriving DecidableEq, Repr

/-- `sendMp3File` (`server.cpp` lines 281-334): catalog lookup, existence and
open checks, then size computation, clamping of `start_pos` into
`[0, file_size]`, seek, and streaming to end of file with
`Content-Length = file_size - start_pos`. -/
def sendMp3File (fs : String → FileState) (catalog : List (String × TrackInfo))
    (track_id : String) (start_pos : Int) : Response :=
  match findTrack catalog track_id with
  | none =>
      { status := 404, contentType := "text/plain",
        contentLength := (strBytes "Track not found").length,
        body := strBytes "Track not found" }
  | some track =>
      match fs track.filepath with
      | .absent =>
          { status := 404, contentType := "text/plain",
            contentLength := (strBytes "MP3 file not found").length,
            body := strBytes "MP3 file not found" }
      | .unopenable =>
          { status := 500, contentType := "text/plain",
            contentLength := (strBytes "Failed to open MP3 file").length,
            body := strBytes "Failed to open MP3 file" }
      | .present bytes =>
          let file_size : Int := bytes.length
          let clamped : Int := max 0 (min start_pos file_size)
          { status := 200, contentType := "audio/mpeg",
            contentLength := (file_size - clamped).toNat,
            body := bytes.drop clamped.toNat }

/-- The three-byte BOM comparison `bom[0]==0xEF && bom[1]==0xBB && bom[2]==0xBF`
with C short-circuit evaluation, applied to the bytes the preceding
`read(bom, 3)` actually stored.  `none` marks the case in which the comparison
would read a `bom` slot the short read left indeterminate. -/
def bomCheck3 : List Nat → Option Bool
  | [] => none
  | b0 :: t =>
    if b0 ≠ 0xEF then some false
    else match t with
      | [] => none
      | b1 :: t2 =>
        if b1 ≠ 0xBB then some false
        else match t2 with
          | [] => none
          | b2 :: _ => some (decide (b2 = 0xBF))

/-- The file-handling part of `sendTrackDescription` (lines 248-277) on an
opened sidecar of the given bytes, returning the advertised `Content-Length`
and the body bytes actually sent.  After `read(bom, 3)` a file shorter than
3 bytes leaves the stream with `failbit` set, so the subsequent
`seekg(0, beg)` fails and the `while (desc_file)` loop sends nothing. -/
def descFileResponse (bytes : List Nat) : Option (Nat × List Nat) :=
  let file_size := bytes.length
  let bomRead := bytes.take 3
  match bomCheck3 bomRead with
  | none => none
  | some true => some (file_size - 3, bytes.drop 3)
  | some false =>
      if bomRead.length < 3 then some (file_size, [])
      else some (file_size, bytes)

/-- `sendTrackDescription` (`server.cpp` lines 217-278).  `none` marks the
indeterminate-read case of the BOM comparison; every other path produces a
definite response. -/
def sendTrackDescription (fs : String → FileState)
    (catalog : List (String × TrackInfo)) (track_id : String) : Option Response :=
  match findTrack catalog track_id with
  | none =>
      some { status := 404, contentType := "application/json",
             contentLength := (strBytes "\x7b\"error\": \"Track not found\"\x7d").length,
             body := strBytes "\x7b\"error\": \"Track not found\"\x7d" }
  | some track =>
      match fs track.description_path with
      | .absent =>
          some { status := 404, contentType := "application/json",
                 contentLength := (strBytes "\x7b\"error\": \"Description file not found\"\x7d").length,
                 body := strBytes "\x7b\"error\": \"Description file not found\"\x7d" }
      | .unopenable =>
          some { status := 500, contentType := "application/json",
                 contentLength := (strBytes "\x7b\"error\": \"Failed to open description file\"\x7d").length,
                 body := strBytes "\x7b\"error\": \"Failed to open description file\"\x7d" }
      | .present bytes =>
          (descFileResponse bytes).map (fun r =>
            { status := 200, contentType := "application/json",
              contentLength := r.1, body := r.2 })

/-- A concrete track used by the closed witnesses: media file of 3 bytes,
sidecar `{}` of 2 bytes. -/
def wTrack : TrackInfo :=
  { id := "t", title := "t", artist := "Unknown", album := "Unknown",
    duration := 0, filepath := "music/t.mp3", description_path := "music/t.json" }

def wCatalog : List (String × TrackInfo) := [("t", wTrack)]

def wFS : String → FileState := fun p =>
  if p = "music/t.mp3" then .present [1, 2, 3]
  else if p = "music/t.json" then .present [123, 125]
  else .absent

/-- A filesystem whose sidecar for `t` is 4 bytes: BOM then `A`. -/
def wFS2 : String → FileState := fun p =>
  if p = "music/t.mp3" then .present [1, 2, 3]
  else if p = "music/t.json" then .present [239, 187, 191, 65]
  else .absent

/-- C4: a `/stream/{id}` request for a present track whose media file exists
and opens is answered with status 200, never 206, whatever start offset the
Range header produced. -/
theorem sendMp3File_status_200 (fs : String → FileState)
    (catalog : List (String × TrackInfo)) (track_id : String) (start_pos : Int)
    (track : TrackInfo) (bytes : List Nat)
    (hfind : findTrack catalog track_id = some track)
    (hfs : fs track.filepath = .present bytes) :
    (sendMp3File fs catalog track_id start_pos).status = 200 := by
  simp [sendMp3File, hfind, hfs]

/-- C4 witness: streaming the concrete track `t` with offset 999. -/
theorem sendMp3File_status_200_witness :
    findTrack wCatalog "t" = some wTrack
    ∧ wFS wTrack.filepath = .present [1, 2, 3]
    ∧ (sendMp3File wFS wCatalog "t" 999).status = 200 :=
  ⟨by decide, by decide,
   sendMp3File_status_200 wFS wCatalog "t" 999 wTrack [1, 2, 3] (by decide) (by decide)⟩

/-- C5: for a present track with an openable media file of size `S` and any
requested start offset `N`, the start position is `N` clamped into `[0, S]`,
the advertised `Content-Length` is `S` minus the clamped offset, and the body
is the file bytes from that offset to end of file; an offset beyond `S` gives
status 200 with `Content-Length` 0 and an empty body. -/
theorem sendMp3File_range_semantics (fs : String → FileState)
    (catalog : List (String × TrackInfo)) (track_id : String) (start_pos : Int)
    (track : TrackInfo) (bytes : List Nat)
    (hfind : findTrack catalog track_id = some track)
    (hfs : fs track.filepath = .present bytes) :
    (sendMp3File fs catalog track_id start_pos).status = 200
    ∧ (sendMp3File fs catalog track_id start_pos).contentLength
        = ((bytes.length : Int) - max 0 (min start_pos (bytes.length : Int))).toNat
    ∧ (sendMp3File fs catalog track_id start_pos).body
        = bytes.drop (max 0 (min start_pos (bytes.length : Int))).toNat
    ∧ ((bytes.length : Int) < start_pos →
        (sendMp3File fs catalog track_id start_pos).contentLength = 0
        ∧ (sendMp3File fs catalog track_id start_pos).body = []) := by
  refine ⟨?_, ?_, ?_, ?_⟩
  · simp [sendMp3File, hfind, hfs]
  · simp [sendMp3File, hfind, hfs]
  · simp [sendMp3File, hfind, hfs]
  · intro hgt
    have hmin : min start_pos ((bytes.length : Int)) = (bytes.length : Int) := by omega
    have hmax : max 0 ((bytes.length : Int)) = (bytes.length : Int) := by omega
    constructor
    · simp [sendMp3File, hfind, hfs, hmin, hmax]
    · simp only [sendMp3File, hfind, hfs, hmin, hmax]
      simp

/-- C5 witness: requesting offset 999999999 against the 3-byte file gives
Content-Length 0 and an empty body. -/
theorem sendMp3File_range_semantics_witness :
    findTrack wCatalog "t" = some wTrack
    ∧ wFS wTrack.filepath = .present [1, 2, 3]
    ∧ ((sendMp3File wFS wCatalog "t" 999999999).status = 200
      ∧ (sendMp3File wFS wCatalog "t" 999999999).contentLength
          = ((([1, 2, 3] : List Nat).length : Int)
              - max 0 (min 999999999 (([1, 2, 3] : List Nat).length : Int))).toNat
      ∧ (sendMp3File wFS wCatalog "t" 999999999).body
          = ([1, 2, 3] : List Nat).drop
              (max 0 (min 999999999 ((([1, 2, 3] : List Nat).length : Int)))).toNat
      ∧ ((([1, 2, 3] : List Nat).length : Int) < 999999999 →
          (sendMp3File wFS wCatalog "t" 999999999).contentLength = 0
          ∧ (sendMp3File wFS wCatalog "t" 999999999).body = [])) :=
  ⟨by decide, by decide,
   sendMp3File_range_semantics wFS wCatalog "t" 999999999 wTrack [1, 2, 3]
     (by decide) (by decide)⟩

theorem bomCheck3_three (x y z : Nat) (rest : List Nat) :
    bomCheck3 (x :: y :: z :: rest)
      = some (decide (x = 0xEF ∧ y = 0xBB ∧ z = 0xBF)) := by
  by_cases hx : x = 0xEF <;> by_cases hy : y = 0xBB <;> by_cases hz : z = 0xBF <;>
    simp [bomCheck3, hx, hy, hz]

theorem descFileResponse_ge3 (x y z : Nat) (rest : List Nat) :
    descFileResponse (x :: y :: z :: rest)
      = some (if x = 0xEF ∧ y = 0xBB ∧ z = 0xBF
          then ((x :: y :: z :: rest).length - 3, (x :: y :: z :: rest).drop 3)
          else ((x :: y :: z :: rest).length, x :: y :: z :: rest)) := by
  simp only [descFileResponse]
  rw [show (x :: y :: z :: rest).take 3 = [x, y, z] from rfl, bomCheck3_three x y z []]
  by_cases hbom : x = 0xEF ∧ y = 0xBB ∧ z = 0xBF
  · rw [decide_eq_true hbom, if_pos hbom]
  · have hd : decide (x = 0xEF ∧ y = 0xBB ∧ z = 0xBF) = false := by
      simpa using hbom
    rw [hd, if_neg hbom]
    simp

/-- C6 counterexample: the catalog entry `t` has the two-byte sidecar `{}`
(bytes `0x7B 0x7D`).  The claim requires the body to be those two bytes
verbatim, but the handler answers with `Content-Length` 2 and an empty body,
because the failed three-byte BOM read poisons the stream. -/
theorem sendTrackDescription_short_sidecar_counterexample :
    sendTrackDescription wFS wCatalog "t"
      = some { status := 200, contentType := "application/json",
               contentLength := 2, body := [] }
    ∧ ([] : List Nat) ≠ [123, 125] := by
  exact ⟨by decide, by decide⟩

/-- C6 amended: for a present track whose sidecar exists, opens and is at
least 3 bytes long, the body is the sidecar bytes verbatim except that a
leading UTF-8 BOM is skipped with `Content-Length` reduced by 3; for sidecars
shorter than 3 bytes whose first byte is not `0xEF`, the advertised
`Content-Length` is the file size but the body sent is empty. -/
theorem sendTrackDescription_verbatim (fs : String → FileState)
    (catalog : List (String × TrackInfo)) (track_id : String)
    (track : TrackInfo) (bytes : List Nat)
    (hfind : findTrack catalog track_id = some track)
    (hfs : fs track.description_path = .present bytes) :
    (3 ≤ bytes.length →
      sendTrackDescription fs catalog track_id
        = some (if bytes.take 3 = [0xEF, 0xBB, 0xBF]
            then { status := 200, contentType := "application/json",
                   contentLength := bytes.length - 3, body := bytes.drop 3 }
            else { status := 200, contentType := "application/json",
                   contentLength := bytes.length, body := bytes }))
    ∧ (1 ≤ bytes.length → bytes.length < 3 → bytes.head? ≠ some 0xEF →
      sendTrackDescription fs catalog track_id
        = some { status := 200, contentType := "application/json",
                 contentLength := bytes.length, body := [] }) := by
  constructor
  · intro hlen
    rcases bytes with _ | ⟨x, _ | ⟨y, _ | ⟨z, rest⟩⟩⟩
    · simp at hlen
    · simp at hlen
    · simp at hlen
    · have hiff : ((x :: y :: z :: rest).take 3 = [0xEF, 0xBB, 0xBF])
          ↔ (x = 0xEF ∧ y = 0xBB ∧ z = 0xBF) := by
        simp
      simp only [sendTrackDescription, hfind, hfs, descFileResponse_ge3,
        Option.map_some']
      by_cases hbom : x = 0xEF ∧ y = 0xBB ∧ z = 0xBF
      · rw [if_pos hbom, if_pos (hiff.mpr hbom)]
      · rw [if_neg hbom, if_neg (fun hc => hbom (hiff.mp hc))]
  · intro hpos hlen hhead
    rcases bytes with _ | ⟨x, _ | ⟨y, rest⟩⟩
    · simp at hpos
    · simp only [sendTrackDescription, hfind, hfs, descFileResponse]
      simp only [List.head?] at hhead
      have hx : x ≠ 0xEF := by simpa using hhead
      simp [bomCheck3, hx]
    · rcases rest with _ | ⟨w, rest2⟩
      · simp only [sendTrackDescription, hfind, hfs, descFileResponse]
        simp only [List.head?] at hhead
        have hx : x ≠ 0xEF := by simpa using hhead
        simp [bomCheck3, hx]
      · simp at hlen
        omega

mutual

/-- The value type of the `nlohmann::json` library: null, booleans, integer
numbers (`number_integer` / `number_unsigned`, stored as `int64_t` /
`uint64_t`), floating-point numbers (`number_float`, stored as `double` —
every finite double is a rational, so the value is carried as `Rat`),
strings, arrays and objects.  Lists are inlined as mutual inductives so that
the serializer below is structurally recursive. -/
inductive Json where
  | null
  | bool (b : Bool)
  | num (n : Int)
  | fnum (x : Rat)
  | str (s : String)
  | arr (elems : JsonElems)
  | obj (fields : JsonFields)

inductive JsonElems where
  | nil
  | cons (hd : Json) (tl : JsonElems)

inductive JsonFields where
  | nil
  | cons (key : String) (val : Json) (tl : JsonFields)

end

/-- Member lookup in a JSON object (`find` on the underlying `std::map`;
the map holds at most one member per key). -/
def jLookup : JsonFields → String → Option Json
  | .nil, _ => none
  | .cons k v rest, key => if k = key then some v else jLookup rest key

/-- `desc_data.value(key, default)` at type `std::string`: throws
(`.error ()`) if the json is not an object or the member exists with a
non-string type; returns the default if the member is absent. -/
def jValueStr (j : Json) (key : String) (dflt : String) : Except Unit String :=
  match j with
  | .obj fields =>
      match jLookup fields key with
      | none => .ok dflt
      | some (.str s) => .ok s
      | some _ => .error ()
  | _ => .error ()

/-- `static_cast<int>` applied to a wider integer: conversion to a 32-bit
signed integer is modular (two's complement). -/
def wrap32 (n : Int) : Int :=
  (n + 2 ^ 31) % 2 ^ 32 - 2 ^ 31

/-- `static_cast<int>(double)`: the fractional part is discarded (truncation
toward zero).  `Int.div` rounds toward zero, so `num.div den` is that
truncation. -/
def truncRat (q : Rat) : Int :=
  Int.tdiv q.num q.den

/-- `desc_data.value(key, default)` at type `int`: throws (`.error ()`) if
the json is not an object or the member exists with a type the arithmetic
`from_json` rejects (null, string, array, object).  A present
`number_integer` / `number_unsigned` member is `static_cast` to `int`
(modular narrowing), a `number_float` member is truncated toward zero (a
truncated value outside `int` range is undefined behaviour in the source;
the model applies the same modular narrowing), and a `boolean` member
converts to 0 or 1 — none of these throw. -/
def jValueInt (j : Json) (key : String) (dflt : Int) : Except Unit Int :=
  match j with
  | .obj fields =>
      match jLookup fields key with
      | none => .ok dflt
      | some (.num n) => .ok (wrap32 n)
      | some (.fnum q) => .ok (wrap32 (truncRat q))
      | some (.bool b) => .ok (if b then 1 else 0)
      | some _ => .error ()
  | _ => .error ()

/-- Whether an extraction threw. -/
def raisesB {α : Type} : Except Unit α → Bool
  | .error _ => true
  | .ok _ => false

/-- The overlay `try` block of `loadTrackCatalog` (lines 109-126): the four
`track.field = desc_data.value(...)` assignments run in order inside one
`try`; the `catch` keeps whatever was assigned before the throw.  A parse
failure (`.error`) reaches the `catch` before any assignment. -/
def overlayDesc (id : String) (parsed : Except Unit Json) (t : TrackInfo) : TrackInfo :=
  match parsed with
  | .error _ => t
  | .ok j =>
    match jValueStr j "title" id with
    | .error _ => t
    | .ok ti =>
      let t1 := { t with title := ti }
      match jValueStr j "artist" "Unknown" with
      | .error _ => t1
      | .ok ar =>
        let t2 := { t1 with artist := ar }
        match jValueStr j "album" "Unknown" with
        | .error _ => t2
        | .ok al =>
          let t3 := { t2 with album := al }
          match jValueInt j "duration" 0 with
          | .error _ => t3
          | .ok d => { t3 with duration := d }

/-- Whether processing this parse result throws somewhere inside the `try`
block (either the parse itself or one of the four extractions). -/
def overlayRaises (id : String) (parsed : Except Unit Json) : Bool :=
  match parsed with
  | .error _ => true
  | .ok j =>
      raisesB (jValueStr j "title" id) || raisesB (jValueStr j "artist" "Unknown")
        || raisesB (jValueStr j "album" "Unknown") || raisesB (jValueInt j "duration" 0)

/-- The value of a successful extraction, or the supplied fallback after a
throw. -/
def extractD {α : Type} (r : Except Unit α) (d : α) : α :=
  match r with
  | .ok v => v
  | .error _ => d

def indentStr (n : Nat) : String := String.mk (List.replicate n ' ')

def hexDigitChar (n : Nat) : Char :=
  if n < 10 then Char.ofNat (48 + n) else Char.ofNat (87 + n)

/-- `nlohmann::json` string escaping with `ensure_ascii` off: quote,
backslash and the named control characters get two-character escapes, the
remaining control characters get `\u00XX`, and everything else is copied. -/
def escapeJsonChar (c : Char) : List Char :=
  if c = '"' then ['\\', '"']
  else if c = '\\' then ['\\', '\\']
  else if c.toNat = 8 then ['\\', 'b']
  else if c.toNat = 9 then ['\\', 't']
  else if c.toNat = 10 then ['\\', 'n']
  else if c.toNat = 12 then ['\\', 'f']
  else if c.toNat = 13 then ['\\', 'r']
  else if c.toNat < 32 then
    ['\\', 'u', '0', '0', hexDigitChar (c.toNat / 16), hexDigitChar (c.toNat % 16)]
  else [c]

def escapeJson (s : String) : String :=
  String.mk (s.toList.map escapeJsonChar).flatten

/-- Stand-in for nlohmann's shortest round-trip decimal rendering of a
`double` (`dump_float`); no value the server serializes is a float (the only
dumped object is the all-default sidecar), so no theorem below depends on
this rendering. -/
def floatRepr (q : Rat) : String :=
  toString q

mutual

/-- `nlohmann::json::dump(indent)` with a positive indent width: objects and
arrays open with a newline, print one member per line indented by
`cur + step` spaces with `",\n"` separators, and close on a line indented by
`cur` spaces; empty containers print as `[]` / `{}`; numbers in decimal;
strings quoted and escaped. -/
def dumpJson (step cur : Nat) : Json → String
  | .null => "null"
  | .bool true => "true"
  | .bool false => "false"
  | .num n => toString n
  | .fnum q => floatRepr q
  | .str s => "\"" ++ escapeJson s ++ "\""
  | .arr .nil => "[]"
  | .arr es =>
      "[\n" ++ dumpElems step (cur + step) es ++ "\n" ++ indentStr cur ++ "]"
  | .obj .nil => "\x7b\x7d"
  | .obj fs =>
      "\x7b\n" ++ dumpMembers step (cur + step) fs ++ "\n" ++ indentStr cur ++ "\x7d"

def dumpElems (step cur : Nat) : JsonElems → String
  | .nil => ""
  | .cons e .nil => indentStr cur ++ dumpJson step cur e
  | .cons e (.cons e2 es) =>
      indentStr cur ++ dumpJson step cur e ++ ",\n"
        ++ dumpElems step cur (.cons e2 es)

def dumpMembers (step cur : Nat) : JsonFields → String
  | .nil => ""
  | .cons k v .nil =>
      indentStr cur ++ "\"" ++ escapeJson k ++ "\": " ++ dumpJson step cur v
  | .cons k v (.cons k2 v2 fs) =>
      indentStr cur ++ "\"" ++ escapeJson k ++ "\": " ++ dumpJson step cur v ++ ",\n"
        ++ dumpMembers step cur (.cons k2 v2 fs)

end

/-- The default sidecar object the loader synthesizes (lines 132-136).
`nlohmann::json` keeps object members in a `std::map` ordered by key, so the
four insertions (title, artist, album, duration) serialize in the order
album, artist, duration, title. -/
def defaultDescJson (id : String) : Json :=
  .obj (.cons "album" (.str "Unknown")
    (.cons "artist" (.str "Unknown")
      (.cons "duration" (.num 0)
        (.cons "title" (.str id) .nil))))

/-- The bytes written for a missing sidecar (lines 139-146): a three-byte
UTF-8 BOM followed by `desc_data.dump(4)`. -/
def sidecarContent (id : String) : List Nat :=
  [0xEF, 0xBB, 0xBF] ++ strBytes (dumpJson 4 0 (defaultDescJson id))

/-- `track_catalog[id] = track` on the association-list model of the
unordered map: replace the existing binding or append a new one. -/
def insertTrack : List (String × TrackInfo) → String → TrackInfo → List (String × TrackInfo)
  | [], k, v => [(k, v)]
  | (k0, v0) :: rest, k, v =>
    if k0 = k then (k, v) :: rest else (k0, v0) :: insertTrack rest k v

/-- One entry of `fs::directory_iterator(MUSIC_DIR)`: the filename split as
`path().stem()` and `path().extension()`. -/
structure DirEntry where
  stem : String
  ext : String
deriving DecidableEq, Repr

/-- Catalog plus the sidecar files written so far during one load. -/
structure LoadState where
  catalog : List (String × TrackInfo)
  writes : List (String × List Nat)
deriving DecidableEq, Repr

/-- The catalog entry a qualifying file gets when its sidecar contributes
nothing: `title = id`, `artist = album = "Unknown"`, `duration = 0`,
`filepath` and `description_path` derived from the stem. -/
def mkDefaultTrack (id : String) : TrackInfo :=
  { id := id, title := id, artist := "Unknown", album := "Unknown", duration := 0,
    filepath := "music/" ++ id ++ ".mp3",
    description_path := "music/" ++ id ++ ".json" }

/-- The loop body of `loadTrackCatalog` (lines 86-155) for one directory
entry.  `sc` maps a sidecar path to `none` when `fs::exists` is false, and
otherwise to the outcome `json::parse` produces on its contents (the BOM
skip included).  A missing sidecar gets the default one written; the track
is inserted into the catalog in every case. -/
def loadStep (sc : String → Option (Except Unit Json)) (st : LoadState)
    (e : DirEntry) : LoadState :=
  if e.ext = ".mp3" then
    let id := e.stem
    let track0 : TrackInfo :=
      { id := id, title := id, artist := "Unknown", album := "Unknown",
        duration := 0, filepath := "music/" ++ e.stem ++ e.ext,
        description_path := "music/" ++ id ++ ".json" }
    match sc ("music/" ++ id ++ ".json") with
    | some parsed =>
        { st with catalog := insertTrack st.catalog id (overlayDesc id parsed track0) }
    | none =>
        { catalog := insertTrack st.catalog id track0,
          writes := st.writes ++ [("music/" ++ id ++ ".json", sidecarContent id)] }
  else st

/-- `loadTrackCatalog` (lines 75-163): clear the catalog, then fold the loop
body over the directory listing. -/
def loadTrackCatalog (sc : String → Option (Except Unit Json))
    (entries : List DirEntry) : LoadState :=
  entries.foldl (loadStep sc) { catalog := [], writes := [] }

/-- A sidecar that parses but whose `duration` member is a string: the title
extraction succeeds, the duration extraction throws. -/
def badSidecar : Json :=
  .obj (.cons "title" (.str "A") (.cons "duration" (.str "x") .nil))

/-- The rational 3/2 — the exactly representable double `1.5` — built
directly in lowest terms so that it evaluates in the kernel. -/
def threeHalves : Rat := ⟨3, 2, by decide, by decide⟩

def badScFS : String → Option (Except Unit Json) := fun p =>
  if p = "music/t.json" then some (.ok badSidecar) else none

/-- A sidecar filesystem whose sidecar for `t` exists but fails to parse,
with no sidecar for any other track. -/
def failParseFS : String → Option (Except Unit Json) := fun p =>
  if p = "music/t.json" then some (.error ()) else none

/-- A fully valid sidecar with all four members present. -/
def goodSidecar : Json :=
  .obj (.cons "album" (.str "C")
    (.cons "artist" (.str "B")
      (.cons "duration" (.num 42)
        (.cons "title" (.str "A") .nil))))

/-- C3 counterexample: the sidecar `{"title": "A", "duration": "x"}` cannot
be fully overlaid (the duration extraction throws), yet the resulting
catalog entry is not the all-defaults record the claim requires: it keeps
`title = "A"` with the remaining fields default — a partial mix. -/
theorem overlay_partial_mix_counterexample :
    overlayRaises "t" (.ok badSidecar) = true
    ∧ (loadTrackCatalog badScFS [⟨"t", ".mp3"⟩]).catalog
        = [("t", { mkDefaultTrack "t" with title := "A" })]
    ∧ ({ mkDefaultTrack "t" with title := "A" } : TrackInfo) ≠ mkDefaultTrack "t" := by
  refine ⟨by decide, by decide, by decide⟩

/-- C3 amended: a sidecar whose contents fail to parse leaves the track with
exactly the default field values and the scan continues with the remaining
files; when parsing succeeds and every extraction succeeds all four fields
are overlaid; but an extraction failure part-way keeps the fields assigned
before the throw (shown by the counterexample), so the overlay is
prefix-wise, not all-or-nothing.  For the string fields only a present
non-string member throws; for `duration` only a present null, string, array
or object member throws — a boolean member converts to 0 or 1 and a float
member is truncated toward zero, without throwing (last three conjuncts). -/
theorem overlayDesc_parse_failure (id : String) (t : TrackInfo) (j : Json) :
    overlayDesc id (.error ()) t = t
    ∧ (overlayRaises id (.ok j) = false →
        overlayDesc id (.ok j) t =
          { t with
            title := extractD (jValueStr j "title" id) t.title,
            artist := extractD (jValueStr j "artist" "Unknown") t.artist,
            album := extractD (jValueStr j "album" "Unknown") t.album,
            duration := extractD (jValueInt j "duration" 0) t.duration })
    ∧ (loadTrackCatalog failParseFS [⟨"t", ".mp3"⟩, ⟨"u", ".mp3"⟩]).catalog
        = [("t", mkDefaultTrack "t"), ("u", mkDefaultTrack "u")]
    ∧ jValueInt (.obj (.cons "duration" (.bool true) .nil)) "duration" 0 = .ok 1
    ∧ jValueInt (.obj (.cons "duration" (.fnum threeHalves) .nil)) "duration" 0 = .ok 1
    ∧ jValueInt (.obj (.cons "duration" (.str "x") .nil)) "duration" 0 = .error () := by
  refine ⟨rfl, ?_, by decide, by rfl, by rfl, by rfl⟩
  intro hok
  simp only [overlayRaises, Bool.or_eq_false_iff] at hok
  obtain ⟨⟨⟨h1, h2⟩, h3⟩, h4⟩ := hok
  cases hv1 : jValueStr j "title" id with
  | error e => rw [hv1] at h1; simp [raisesB] at h1
  | ok v1 =>
    cases hv2 : jValueStr j "artist" "Unknown" with
    | error e => rw [hv2] at h2; simp [raisesB] at h2
    | ok v2 =>
      cases hv3 : jValueStr j "album" "Unknown" with
      | error e => rw [hv3] at h3; simp [raisesB] at h3
      | ok v3 =>
        cases hv4 : jValueInt j "duration" 0 with
        | error e => rw [hv4] at h4; simp [raisesB] at h4
        | ok v4 => simp [overlayDesc, hv1, hv2, hv3, hv4, extractD]

/-- C3 amended witness: the parse-failure branch evaluated on the concrete
track `t`, and the full overlay evaluated on a sidecar with all four members
(title `A`, artist `B`, album `C`, duration 42). -/
theorem overlayDesc_parse_failure_witness :
    overlayDesc "t" (.error ()) wTrack = wTrack
    ∧ overlayRaises "t" (.ok goodSidecar) = false
    ∧ overlayDesc "t" (.ok goodSidecar) wTrack
        = { wTrack with title := "A", artist := "B", album := "C", duration := 42 } :=
  ⟨(overlayDesc_parse_failure "t" wTrack goodSidecar).1,
   by decide,
   by
     have h := (overlayDesc_parse_failure "t" wTrack goodSidecar).2.1 (by decide)
     exact h.trans (by decide)⟩

theorem findTrack_append (c1 c2 : List (String × TrackInfo)) (k : String)
    (h1 : findTrack c1 k = none) : findTrack (c1 ++ c2) k = findTrack c2 k := by
  induction c1 with
  | nil => simp
  | cons p rest ih =>
    obtain ⟨k0, v0⟩ := p
    by_cases hk : k0 = k
    · simp [findTrack, hk] at h1
    · simp only [findTrack, hk, if_false, List.cons_append, if_neg hk] at h1 ⊢
      exact ih h1

theorem insertTrack_append (c : List (String × TrackInfo)) (k : String)
    (v : TrackInfo) (h : findTrack c k = none) :
    insertTrack c k v = c ++ [(k, v)] := by
  induction c with
  | nil => rfl
  | cons p rest ih =>
    obtain ⟨k0, v0⟩ := p
    by_cases hk : k0 = k
    · simp [findTrack, hk] at h
    · simp only [insertTrack, if_neg hk, List.cons_append, List.cons.injEq, true_and]
      exact ih (by simpa [findTrack, hk] using h)

theorem loadStep_fresh_none (sc : String → Option (Except Unit Json))
    (st : LoadState) (e : DirEntry) (hexte : e.ext = ".mp3")
    (hnosce : sc ("music/" ++ e.stem ++ ".json") = none)
    (hfreshe : findTrack st.catalog e.stem = none) :
    loadStep sc st e =
      { catalog := st.catalog ++ [(e.stem, mkDefaultTrack e.stem)],
        writes := st.writes ++ [("music/" ++ e.stem ++ ".json", sidecarContent e.stem)] } := by
  unfold loadStep
  rw [hexte, if_pos rfl]
  simp only [hnosce]
  rw [insertTrack_append st.catalog e.stem _ hfreshe]
  rfl

theorem loadFold_fresh (sc : String → Option (Except Unit Json))
    (entries : List DirEntry) (st : LoadState)
    (hext : ∀ e ∈ entries, e.ext = ".mp3")
    (hnosc : ∀ e ∈ entries, sc ("music/" ++ e.stem ++ ".json") = none)
    (hfresh : ∀ e ∈ entries, findTrack st.catalog e.stem = none)
    (hnodup : (entries.map DirEntry.stem).Nodup) :
    (entries.foldl (loadStep sc) st).catalog
        = st.catalog ++ entries.map (fun e => (e.stem, mkDefaultTrack e.stem))
    ∧ (entries.foldl (loadStep sc) st).writes
        = st.writes
            ++ entries.map (fun e => ("music/" ++ e.stem ++ ".json", sidecarContent e.stem)) := by
  induction entries generalizing st with
  | nil => simp
  | cons e rest ih =>
    have hexte : e.ext = ".mp3" := hext e (by simp)
    have hnosce := hnosc e (by simp)
    have hfreshe := hfresh e (by simp)
    have hstep := loadStep_fresh_none sc st e hexte hnosce hfreshe
    have hstem : ∀ e2 ∈ rest, e2.stem ≠ e.stem := by
      intro e2 he2 heq
      simp only [List.map_cons, List.nodup_cons] at hnodup
      exact hnodup.1 (heq ▸ List.mem_map_of_mem DirEntry.stem he2)
    have hnodup2 : (rest.map DirEntry.stem).Nodup := by
      simp only [List.map_cons, List.nodup_cons] at hnodup
      exact hnodup.2
    have hfresh2 : ∀ e2 ∈ rest,
        findTrack (st.catalog ++ [(e.stem, mkDefaultTrack e.stem)]) e2.stem = none := by
      intro e2 he2
      rw [findTrack_append _ _ _ (hfresh e2 (List.mem_cons_of_mem e he2))]
      have hne : ¬e.stem = e2.stem := fun heq => hstem e2 he2 heq.symm
      simp [findTrack, hne]
    have ihres := ih
      { catalog := st.catalog ++ [(e.stem, mkDefaultTrack e.stem)],
        writes := st.writes ++ [("music/" ++ e.stem ++ ".json", sidecarContent e.stem)] }
      (fun e2 he2 => hext e2 (List.mem_cons_of_mem e he2))
      (fun e2 he2 => hnosc e2 (List.mem_cons_of_mem e he2))
      hfresh2
      hnodup2
    rw [List.foldl_cons, hstep]
    refine ⟨?_, ?_⟩
    · rw [ihres.1]
      simp
    · rw [ihres.2]
      simp

/-- C8: loading a directory of `N` files with extension `.mp3` (distinct
stems, as distinct filenames with one fixed extension have) and no sidecar
files yields a catalog that is exactly the `N` default entries and writes
exactly `N` sidecar files, every entry and every written sidecar carrying
`title = id`, `artist = "Unknown"`, `album = "Unknown"`, `duration = 0`. -/
theorem loadTrackCatalog_fresh_dir (sc : String → Option (Except Unit Json))
    (entries : List DirEntry)
    (hext : ∀ e ∈ entries, e.ext = ".mp3")
    (hnosc : ∀ e ∈ entries, sc ("music/" ++ e.stem ++ ".json") = none)
    (hnodup : (entries.map DirEntry.stem).Nodup) :
    (loadTrackCatalog sc entries).catalog
        = entries.map (fun e => (e.stem, mkDefaultTrack e.stem))
    ∧ (loadTrackCatalog sc entries).writes
        = entries.map (fun e => ("music/" ++ e.stem ++ ".json", sidecarContent e.stem))
    ∧ (loadTrackCatalog sc entries).catalog.length = entries.length
    ∧ (loadTrackCatalog sc entries).writes.length = entries.length
    ∧ (∀ p ∈ (loadTrackCatalog sc entries).catalog,
        p.2.title = p.1 ∧ p.2.artist = "Unknown" ∧ p.2.album = "Unknown"
          ∧ p.2.duration = 0)
    ∧ (∀ w ∈ (loadTrackCatalog sc entries).writes,
        ∃ e ∈ entries, w.1 = "music/" ++ e.stem ++ ".json"
          ∧ w.2 = sidecarContent e.stem) := by
  have hchar := loadFold_fresh sc entries { catalog := [], writes := [] }
    hext hnosc (fun e _ => rfl) hnodup
  unfold loadTrackCatalog
  obtain ⟨hcat, hwr⟩ := hchar
  simp only [LoadState.mk.injEq] at hcat hwr
  refine ⟨by simpa using hcat, by simpa using hwr, ?_, ?_, ?_, ?_⟩
  · rw [show (List.foldl (loadStep sc) { catalog := [], writes := [] } entries).catalog
        = entries.map (fun e => (e.stem, mkDefaultTrack e.stem)) by simpa using hcat]
    simp
  · rw [show (List.foldl (loadStep sc) { catalog := [], writes := [] } entries).writes
        = entries.map (fun e => ("music/" ++ e.stem ++ ".json", sidecarContent e.stem))
        by simpa using hwr]
    simp
  · intro p hp
    rw [show (List.foldl (loadStep sc) { catalog := [], writes := [] } entries).catalog
        = entries.map (fun e => (e.stem, mkDefaultTrack e.stem)) by simpa using hcat] at hp
    obtain ⟨e, _, rfl⟩ := List.mem_map.mp hp
    exact ⟨rfl, rfl, rfl, rfl⟩
  · intro w hw
    rw [show (List.foldl (loadStep sc) { catalog := [], writes := [] } entries).writes
        = entries.map (fun e => ("music/" ++ e.stem ++ ".json", sidecarContent e.stem))
        by simpa using hwr] at hw
    obtain ⟨e, he, rfl⟩ := List.mem_map.mp hw
    exact ⟨e, he, rfl, rfl⟩

/-- C8 witness: two media files `a.mp3`, `b.mp3` and a sidecar filesystem
with no sidecars at all. -/
theorem loadTrackCatalog_fresh_dir_witness :
    (loadTrackCatalog (fun _ => none) [⟨"a", ".mp3"⟩, ⟨"b", ".mp3"⟩]).catalog
        = ([⟨"a", ".mp3"⟩, ⟨"b", ".mp3"⟩] : List DirEntry).map
            (fun e => (e.stem, mkDefaultTrack e.stem))
    ∧ (loadTrackCatalog (fun _ => none) [⟨"a", ".mp3"⟩, ⟨"b", ".mp3"⟩]).writes
        = ([⟨"a", ".mp3"⟩, ⟨"b", ".mp3"⟩] : List DirEntry).map
            (fun e => ("music/" ++ e.stem ++ ".json", sidecarContent e.stem))
    ∧ (loadTrackCatalog (fun _ => none) [⟨"a", ".mp3"⟩, ⟨"b", ".mp3"⟩]).catalog.length = 2
    ∧ (loadTrackCatalog (fun _ => none) [⟨"a", ".mp3"⟩, ⟨"b", ".mp3"⟩]).writes.length = 2 := by
  have h := loadTrackCatalog_fresh_dir (fun _ => none) [⟨"a", ".mp3"⟩, ⟨"b", ".mp3"⟩]
    (by decide) (fun e _ => rfl) (by decide)
  exact ⟨h.1, h.2.1, h.2.2.1, h.2.2.2.1⟩

/-- C10 invariant: a queued write is a sidecar path carrying the BOM-prefixed
default-object dump. -/
def writeOk (w : String × List Nat) : Prop :=
  ∃ id, w.1 = "music/" ++ id ++ ".json" ∧ w.2 = sidecarContent id

theorem loadStep_writes (sc : String → Option (Except Unit Json))
    (st : LoadState) (e : DirEntry)
    (h : ∀ w ∈ st.writes, writeOk w) :
    ∀ w ∈ (loadStep sc st e).writes, writeOk w := by
  intro w hw
  by_cases hextc : e.ext = ".mp3"
  · unfold loadStep at hw
    rw [if_pos hextc] at hw
    cases hsc : sc ("music/" ++ e.stem ++ ".json") with
    | some parsed =>
        simp only [hsc] at hw
        exact h w hw
    | none =>
        simp only [hsc, List.mem_append, List.mem_singleton] at hw
        rcases hw with hw | hw
        · exact h w hw
        · exact ⟨e.stem, by rw [hw], by rw [hw]⟩
  · unfold loadStep at hw
    rw [if_neg hextc] at hw
    exact h w hw

theorem loadFold_writes (sc : String → Option (Except Unit Json))
    (entries : List DirEntry) (st : LoadState)
    (h : ∀ w ∈ st.writes, writeOk w) :
    ∀ w ∈ (entries.foldl (loadStep sc) st).writes, writeOk w := by
  induction entries generalizing st with
  | nil => simpa using h
  | cons e rest ih => exact ih _ (loadStep_writes sc st e h)

/-- C10: every sidecar file `loadTrackCatalog` synthesizes begins with the
three-byte UTF-8 BOM `EF BB BF` followed by `dump(4)` of the default object
(4-space indentation, keys in map order), so its first byte is the BOM byte
`0xEF`, not the `0x7B` of bare JSON text; the concrete rendering for id `t`
is included. -/
theorem loadTrackCatalog_sidecar_bom (sc : String → Option (Except Unit Json))
    (entries : List DirEntry) (p : String) (content : List Nat)
    (hw : (p, content) ∈ (loadTrackCatalog sc entries).writes) :
    (∃ id, p = "music/" ++ id ++ ".json"
      ∧ content = [0xEF, 0xBB, 0xBF] ++ strBytes (dumpJson 4 0 (defaultDescJson id))
      ∧ content.take 3 = [0xEF, 0xBB, 0xBF]
      ∧ content.head? = some 0xEF
      ∧ content.head? ≠ some 0x7B)
    ∧ dumpJson 4 0 (defaultDescJson "t")
        = "\x7b\n    \"album\": \"Unknown\",\n    \"artist\": \"Unknown\",\n    \"duration\": 0,\n    \"title\": \"t\"\n\x7d" := by
  constructor
  · have hok := loadFold_writes sc entries { catalog := [], writes := [] }
      (by simp) (p, content) hw
    obtain ⟨id, hp, hc⟩ := hok
    refine ⟨id, hp, by simpa [sidecarContent] using hc, ?_, ?_, ?_⟩
    · rw [show content = sidecarContent id from hc]
      rfl
    · rw [show content = sidecarContent id from hc]
      rfl
    · rw [show content = sidecarContent id from hc]
      simp [sidecarContent]
  · decide

/-- C10 witness: a single-file load whose write queue contains exactly the
sidecar for `t`. -/
theorem loadTrackCatalog_sidecar_bom_witness :
    ("music/t.json", sidecarContent "t")
        ∈ (loadTrackCatalog (fun _ => none) [⟨"t", ".mp3"⟩]).writes
    ∧ ((∃ id, "music/t.json" = "music/" ++ id ++ ".json"
        ∧ sidecarContent "t"
            = [0xEF, 0xBB, 0xBF] ++ strBytes (dumpJson 4 0 (defaultDescJson id))
        ∧ (sidecarContent "t").take 3 = [0xEF, 0xBB, 0xBF]
        ∧ (sidecarContent "t").head? = some 0xEF
        ∧ (sidecarContent "t").head? ≠ some 0x7B)
      ∧ dumpJson 4 0 (defaultDescJson "t")
          = "\x7b\n    \"album\": \"Unknown\",\n    \"artist\": \"Unknown\",\n    \"duration\": 0,\n    \"title\": \"t\"\n\x7d") :=
  ⟨by decide,
   loadTrackCatalog_sidecar_bom (fun _ => none) [⟨"t", ".mp3"⟩] "music/t.json"
     (sidecarContent "t") (by decide)⟩

/-- C6 amended witness: the 4-byte sidecar `BOM ++ "A"` of `wFS2` is streamed
with the BOM stripped, and the 2-byte `{}` sidecar of `wFS` yields an empty
body. -/
theorem sendTrackDescription_verbatim_witness :
    findTrack wCatalog "t" = some wTrack
    ∧ wFS2 wTrack.description_path = .present [239, 187, 191, 65]
    ∧ (3 ≤ ([239, 187, 191, 65] : List Nat).length →
        sendTrackDescription wFS2 wCatalog "t"
          = some (if ([239, 187, 191, 65] : List Nat).take 3 = [0xEF, 0xBB, 0xBF]
              then { status := 200, contentType := "application/json",
                     contentLength := ([239, 187, 191, 65] : List Nat).length - 3,
                     body := ([239, 187, 191, 65] : List Nat).drop 3 }
              else { status := 200, contentType := "application/json",
                     contentLength := ([239, 187, 191, 65] : List Nat).length,
                     body := [239, 187, 191, 65] })) :=
  ⟨by decide, by decide,
   (sendTrackDescription_verbatim wFS2 wCatalog "t" wTrack [239, 187, 191, 65]
     (by decide) (by decide)).1⟩

/-- The whitespace class of the default locale (space and `\t`..`\r`), used
both by `operator>>` tokenization and by `std::stoll`. -/
def isStreamSpace (c : Char) : Bool :=
  c = ' ' || (9 <= c.toNat && c.toNat <= 13)

/-- One `>>` extraction into a `std::string`: skip whitespace, take the
non-whitespace run, leave the rest. -/
def nextToken (s : List Char) : List Char × List Char :=
  let s1 := s.dropWhile isStreamSpace
  (s1.takeWhile (fun c => !isStreamSpace c), s1.dropWhile (fun c => !isStreamSpace c))

/-- The `path` of `method >> path >> version`: the second token. -/
def secondToken (s : List Char) : List Char :=
  (nextToken (nextToken s).2).1

/-- `std::string::find(pat, 0)` for a non-empty pattern: the first index at
which `pat` is a prefix of the remaining suffix. -/
def findSub (pat : List Char) : List Char → Nat → Option Nat
  | [], _ => none
  | c :: rest, i =>
    if pat.isPrefixOf (c :: rest) then some i else findSub pat rest (i + 1)

/-- The two exceptions `std::stoll` can throw. -/
inductive StollErr where
  | invalidArgument
  | outOfRange
deriving DecidableEq, Repr

def digitsVal (ds : List Char) : Nat :=
  ds.foldl (fun a c => a * 10 + (c.toNat - 48)) 0

/-- `std::stoll(s)` (base 10): skip whitespace, optional sign, then decimal
digits up to the first non-digit; `invalid_argument` when no digit is
consumed, `out_of_range` when the value leaves `long long`. -/
def stollParse (s : List Char) : Except StollErr Int :=
  let s1 := s.dropWhile isStreamSpace
  let signNeg : Bool :=
    match s1 with
    | c :: _ => c == '-'
    | [] => false
  let s2 :=
    match s1 with
    | '-' :: t => t
    | '+' :: t => t
    | _ => s1
  let ds := s2.takeWhile Char.isDigit
  if ds.isEmpty then .error .invalidArgument
  else
    let v : Int := if signNeg then -(digitsVal ds : Int) else (digitsVal ds : Int)
    if v < -(2 ^ 63) then .error .outOfRange
    else if (2 ^ 63 : Int) - 1 < v then .error .outOfRange
    else .ok v

/-- The Range parsing of `handleHttpRequest` (lines 356-367): search the raw
request for `"Range: bytes="`, then for the following `'-'`; when both are
found, the text between them goes through `std::stoll` (which may throw);
otherwise `range_start` keeps its initial value 0. -/
def parseRangeStart (request : List Char) : Except StollErr Int :=
  match findSub "Range: bytes=".toList request 0 with
  | none => .ok 0
  | some idx =>
      let startPos := idx + 13
      match findSub ['-'] (request.drop startPos) 0 with
      | none => .ok 0
      | some k => stollParse ((request.drop startPos).take k)

/-- `urlDecode` applied to the id portion of the path, back at `String`
type. -/
def decodeId (s : List Char) : String :=
  String.mk ((urlDecode (s.map Char.toNat)).map Char.ofNat)

/-- Which route ran and, where this development models the handler, the
response it computed.  `/catalog` and `/reload` always send a fixed-shape
200 response; their bodies are not needed by any claim. -/
inductive RouteResult where
  | catalogSent
  | descriptionSent (r : Option Response)
  | streamSent (r : Response)
  | reloaded
  | notFound
deriving DecidableEq, Repr

/-- `handleHttpRequest` (lines 337-397) after a successful `recv`: tokenize
the request line, parse the Range header (this is where `std::stoll` may
throw — before any routing), then dispatch on the path.  An `.error`
result is an exception escaping the handler, which terminates the process
(`std::terminate` in the detached client thread). -/
def handleHttpRequest (fs : String → FileState)
    (catalog : List (String × TrackInfo)) (request : List Char) :
    Except StollErr RouteResult :=
  let path := secondToken request
  match parseRangeStart request with
  | .error e => .error e
  | .ok range_start =>
      if path = "/catalog".toList then .ok .catalogSent
      else if "/description/".toList.isPrefixOf path then
        .ok (.descriptionSent (sendTrackDescription fs catalog (decodeId (path.drop 13))))
      else if "/stream/".toList.isPrefixOf path then
        .ok (.streamSent (sendMp3File fs catalog (decodeId (path.drop 8)) range_start))
      else if path = "/reload".toList then .ok .reloaded
      else .ok .notFound

/-- C1 counterexample: on a request carrying `Range: bytes=-500` the
start-offset substring between `bytes=` and the next `'-'` is empty, so
`std::stoll` throws `invalid_argument`; the exception escapes the handler
and the detached client thread, terminating the process — the claim that no
input ends worse than a stuck connection or a 500 is false. -/
theorem handleHttpRequest_stoll_throw_counterexample :
    handleHttpRequest wFS wCatalog
        "GET /stream/t HTTP/1.1\r\nHost: x\r\nRange: bytes=-500\r\n\r\n".toList
      = .error .invalidArgument := by
  rfl

/-- C1 amended: the range parse is the one throwing step; for every request
whose Range start-offset substring `std::stoll` converts (or which has no
complete `Range: bytes=...-` header), the handler runs to completion and
produces a route outcome, whatever the filesystem and catalog contents. -/
theorem handleHttpRequest_no_throw (fs : String → FileState)
    (catalog : List (String × TrackInfo)) (request : List Char) (n : Int)
    (h : parseRangeStart request = .ok n) :
    ∃ r : RouteResult, handleHttpRequest fs catalog request = .ok r := by
  simp only [handleHttpRequest, h]
  split_ifs <;> exact ⟨_, rfl⟩

/-- C1 amended witness: a `/catalog` request with a well-formed Range header
parses to offset 100 and is handled without a throw. -/
theorem handleHttpRequest_no_throw_witness :
    parseRangeStart "GET /catalog HTTP/1.1\r\nRange: bytes=100-\r\n\r\n".toList = .ok 100
    ∧ ∃ r, handleHttpRequest wFS wCatalog
        "GET /catalog HTTP/1.1\r\nRange: bytes=100-\r\n\r\n".toList = .ok r :=
  ⟨by rfl, handleHttpRequest_no_throw wFS wCatalog _ 100 (by rfl)⟩

/-- The loader thread of a `/reload`, at the granularity of individual
catalog-map operations: `loadTrackCatalog` locks `catalog_mutex`, runs
`track_catalog.clear()`, assigns the tracks one by one, and unlocks when the
`lock_guard` leaves scope. -/
inductive LAct where
  | acquire
  | clear
  | insert (k : String) (v : TrackInfo)
  | release
deriving DecidableEq, Repr

/-- A catalog reader (`sendCatalog`, `sendTrackDescription`, `sendMp3File`):
it locks the same `catalog_mutex`, observes the catalog while holding it
(the whole iteration or lookup happens inside the critical section), and
unlocks. -/
inductive RAct where
  | acquire
  | snapshot
  | release
deriving DecidableEq, Repr

/-- An interleaved execution state of one reloading thread and one reader
thread: who holds the mutex, the shared `track_catalog`, the remaining
program of each thread, and what the reader observed. -/
structure CSys where
  lockL : Bool
  lockR : Bool
  cat : List (String × TrackInfo)
  lrest : List LAct
  rrest : List RAct
  observed : Option (List (String × TrackInfo))

def applyLAct (c : List (String × TrackInfo)) : LAct → List (String × TrackInfo)
  | .acquire => c
  | .clear => []
  | .insert k v => insertTrack c k v
  | .release => c

def lockAfterL (l : Bool) : LAct → Bool
  | .acquire => true
  | .release => false
  | _ => l

def lockAfterR (l : Bool) : RAct → Bool
  | .acquire => true
  | .release => false
  | _ => l

/-- Interleaving semantics: at each step one thread performs its next
action.  A `std::mutex` acquisition is enabled only while no thread holds
the lock; the other actions belong to a thread already inside its critical
section and are always enabled when they are next. -/
inductive CStep : CSys → CSys → Prop
  | lstep (s : CSys) (a : LAct) (rest : List LAct)
      (hp : s.lrest = a :: rest)
      (hen : a = .acquire → s.lockL = false ∧ s.lockR = false) :
      CStep s { s with lrest := rest, cat := applyLAct s.cat a,
                       lockL := lockAfterL s.lockL a }
  | rstep (s : CSys) (a : RAct) (rest : List RAct)
      (hp : s.rrest = a :: rest)
      (hen : a = .acquire → s.lockL = false ∧ s.lockR = false) :
      CStep s { s with rrest := rest, lockR := lockAfterR s.lockR a,
                       observed := if a = .snapshot then some s.cat else s.observed }

def mkIns (kv : String × TrackInfo) : LAct := .insert kv.1 kv.2

/-- The action sequence of one `loadTrackCatalog` run that will install the
given entries. -/
def loaderProg (entries : List (String × TrackInfo)) : List LAct :=
  .acquire :: .clear :: (entries.map mkIns ++ [.release])

def readerProg : List RAct := [.acquire, .snapshot, .release]

/-- The catalog the tracks of one load produce: clear, then insert each. -/
def foldCat (entries : List (String × TrackInfo)) : List (String × TrackInfo) :=
  entries.foldl (fun c kv => insertTrack c kv.1 kv.2) []

/-- Initial state: catalog of load `N` installed (`c0`), lock free, a fresh
reload of `entries` and a fresh reader both ready to run. -/
def initSys (c0 entries : List (String × TrackInfo)) : CSys :=
  { lockL := false, lockR := false, cat := c0,
    lrest := loaderProg entries, rrest := readerProg, observed := none }

/-- Reachability along the interleaving. -/
inductive CReach (s0 : CSys) : CSys → Prop
  | refl : CReach s0 s0
  | step {s1 s2 : CSys} : CReach s0 s1 → CStep s1 s2 → CReach s0 s2

/-- Loader phases: not started (catalog still `c0`), lock taken but not yet
cleared, mid-scan with a prefix `done` of the entries installed, or
finished with the new catalog installed. -/
def loaderInv (c0 entries : List (String × TrackInfo)) (s : CSys) : Prop :=
  (s.lrest = loaderProg entries ∧ s.lockL = false ∧ s.cat = c0)
  ∨ (s.lrest = .clear :: (entries.map mkIns ++ [.release]) ∧ s.lockL = true ∧ s.cat = c0)
  ∨ (∃ done rem, entries = done ++ rem
      ∧ s.lrest = rem.map mkIns ++ [.release] ∧ s.lockL = true ∧ s.cat = foldCat done)
  ∨ (s.lrest = [] ∧ s.lockL = false ∧ s.cat = foldCat entries)

/-- Reader phases: the snapshot is taken while holding the lock, and once
taken it is one of the two full generations. -/
def readerInv (c0 entries : List (String × TrackInfo)) (s : CSys) : Prop :=
  (s.rrest = readerProg ∧ s.lockR = false ∧ s.observed = none)
  ∨ (s.rrest = [RAct.snapshot, RAct.release] ∧ s.lockR = true ∧ s.observed = none)
  ∨ (s.rrest = [RAct.release] ∧ s.lockR = true
      ∧ (s.observed = some c0 ∨ s.observed = some (foldCat entries)))
  ∨ (s.rrest = [] ∧ s.lockR = false
      ∧ (s.observed = some c0 ∨ s.observed = some (foldCat entries)))

/-- The inductive system invariant: both thread invariants plus mutual
exclusion. -/
def sysInv (c0 entries : List (String × TrackInfo)) (s : CSys) : Prop :=
  loaderInv c0 entries s ∧ readerInv c0 entries s
    ∧ ¬(s.lockL = true ∧ s.lockR = true)

theorem sysInv_init (c0 entries : List (String × TrackInfo)) :
    sysInv c0 entries (initSys c0 entries) := by
  refine ⟨Or.inl ⟨rfl, rfl, rfl⟩, Or.inl ⟨rfl, rfl, rfl⟩, ?_⟩
  simp [initSys]

theorem sysInv_step (c0 entries : List (String × TrackInfo)) (s s2 : CSys)
    (hinv : sysInv c0 entries s) (hs : CStep s s2) : sysInv c0 entries s2 := by
  obtain ⟨hl, hr, hme⟩ := hinv
  cases hs with
  | lstep a rest hp hen =>
    rcases hl with ⟨hprog, hlock, hcat⟩ | ⟨hprog, hlock, hcat⟩
      | ⟨done, rem, hsplit, hprog, hlock, hcat⟩ | ⟨hprog, hlock, hcat⟩
    · -- phase A: the next action is the acquire
      rw [hprog] at hp
      simp only [loaderProg, List.cons.injEq] at hp
      obtain ⟨ha, hrest⟩ := hp
      subst ha
      obtain ⟨hL0, hR0⟩ := hen rfl
      refine ⟨Or.inr (Or.inl ⟨by simp [hrest.symm], by simp [lockAfterL], by simp [applyLAct, hcat]⟩),
        ?_, by simp [lockAfterL, hR0]⟩
      rcases hr with ⟨h1, h2, h3⟩ | ⟨h1, h2, h3⟩ | ⟨h1, h2, h3⟩ | ⟨h1, h2, h3⟩
      · exact Or.inl ⟨h1, h2, h3⟩
      · exact absurd h2 (by simp [hR0])
      · exact absurd h2 (by simp [hR0])
      · exact Or.inr (Or.inr (Or.inr ⟨h1, h2, h3⟩))
    · -- phase B: the next action is the clear
      rw [hprog] at hp
      simp only [List.cons.injEq] at hp
      obtain ⟨ha, hrest⟩ := hp
      subst ha
      refine ⟨Or.inr (Or.inr (Or.inl ⟨[], entries, by simp, by simp [hrest.symm],
        by simp [lockAfterL, hlock], by simp [applyLAct, foldCat]⟩)), ?_, ?_⟩
      · rcases hr with ⟨h1, h2, h3⟩ | ⟨h1, h2, h3⟩ | ⟨h1, h2, h3⟩ | ⟨h1, h2, h3⟩
        · exact Or.inl ⟨h1, h2, h3⟩
        · exact Or.inr (Or.inl ⟨h1, h2, h3⟩)
        · exact Or.inr (Or.inr (Or.inl ⟨h1, h2, h3⟩))
        · exact Or.inr (Or.inr (Or.inr ⟨h1, h2, h3⟩))
      · simp only [lockAfterL, hlock]
        intro hcontra
        exact hme ⟨hlock, hcontra.2⟩
    · -- phase mid: the next action is an insert or the release
      cases rem with
      | nil =>
        simp only [List.map_nil, List.nil_append] at hprog
        rw [hprog] at hp
        simp only [List.cons.injEq] at hp
        obtain ⟨ha, hrest⟩ := hp
        subst ha
        refine ⟨Or.inr (Or.inr (Or.inr ⟨by simp [hrest.symm], by simp [lockAfterL],
          by simp [applyLAct, hcat, hsplit]⟩)), ?_, by simp [lockAfterL]⟩
        rcases hr with ⟨h1, h2, h3⟩ | ⟨h1, h2, h3⟩ | ⟨h1, h2, h3⟩ | ⟨h1, h2, h3⟩
        · exact Or.inl ⟨h1, h2, h3⟩
        · exact Or.inr (Or.inl ⟨h1, h2, h3⟩)
        · exact Or.inr (Or.inr (Or.inl ⟨h1, h2, h3⟩))
        · exact Or.inr (Or.inr (Or.inr ⟨h1, h2, h3⟩))
      | cons kv tl =>
        simp only [List.map_cons, List.cons_append] at hprog
        rw [hprog] at hp
        simp only [List.cons.injEq] at hp
        obtain ⟨ha, hrest⟩ := hp
        subst ha
        refine ⟨Or.inr (Or.inr (Or.inl ⟨done ++ [kv], tl, by simp [hsplit],
          by simp [hrest.symm], by simp [mkIns, lockAfterL, hlock], ?_⟩)), ?_, ?_⟩
        · simp only [mkIns, applyLAct, hcat, foldCat, List.foldl_append, List.foldl_cons,
            List.foldl_nil]
        · rcases hr with ⟨h1, h2, h3⟩ | ⟨h1, h2, h3⟩ | ⟨h1, h2, h3⟩ | ⟨h1, h2, h3⟩
          · exact Or.inl ⟨h1, h2, h3⟩
          · exact Or.inr (Or.inl ⟨h1, h2, h3⟩)
          · exact Or.inr (Or.inr (Or.inl ⟨h1, h2, h3⟩))
          · exact Or.inr (Or.inr (Or.inr ⟨h1, h2, h3⟩))
        · simp only [mkIns, lockAfterL, hlock]
          intro hcontra
          exact hme ⟨hlock, hcontra.2⟩
    · -- phase D: the loader program is exhausted, no step possible
      rw [hprog] at hp
      exact absurd hp (by simp)
  | rstep a rest hp hen =>
    rcases hr with ⟨hprog, hlock, hobs⟩ | ⟨hprog, hlock, hobs⟩
      | ⟨hprog, hlock, hobs⟩ | ⟨hprog, hlock, hobs⟩
    · -- reader phase A: acquire
      rw [hprog] at hp
      simp only [readerProg, List.cons.injEq] at hp
      obtain ⟨ha, hrest⟩ := hp
      subst ha
      obtain ⟨hL0, hR0⟩ := hen rfl
      refine ⟨?_, Or.inr (Or.inl ⟨by simp [hrest.symm], by simp [lockAfterR],
        by simp [hobs]⟩), by simp [lockAfterR, hL0]⟩
      rcases hl with ⟨h1, h2, h3⟩ | ⟨h1, h2, h3⟩ | ⟨d, r2, h0, h1, h2, h3⟩ | ⟨h1, h2, h3⟩
      · exact Or.inl ⟨h1, h2, h3⟩
      · exact absurd h2 (by simp [hL0])
      · exact absurd h2 (by simp [hL0])
      · exact Or.inr (Or.inr (Or.inr ⟨h1, h2, h3⟩))
    · -- reader phase B: snapshot, taken while holding the lock
      rw [hprog] at hp
      simp only [List.cons.injEq] at hp
      obtain ⟨ha, hrest⟩ := hp
      subst ha
      have hL0 : s.lockL = false := by
        by_contra hc
        exact hme ⟨by simpa using hc, hlock⟩
      have hcats : s.cat = c0 ∨ s.cat = foldCat entries := by
        rcases hl with ⟨h1, h2, h3⟩ | ⟨h1, h2, h3⟩ | ⟨d, r2, h0, h1, h2, h3⟩ | ⟨h1, h2, h3⟩
        · exact Or.inl h3
        · exact absurd h2 (by simp [hL0])
        · exact absurd h2 (by simp [hL0])
        · exact Or.inr h3
      refine ⟨?_, Or.inr (Or.inr (Or.inl ⟨by simp [hrest.symm],
        by simp [lockAfterR, hlock], ?_⟩)), ?_⟩
      · rcases hl with ⟨h1, h2, h3⟩ | ⟨h1, h2, h3⟩ | ⟨d, r2, h0, h1, h2, h3⟩ | ⟨h1, h2, h3⟩
        · exact Or.inl ⟨h1, h2, h3⟩
        · exact Or.inr (Or.inl ⟨h1, h2, h3⟩)
        · exact Or.inr (Or.inr (Or.inl ⟨d, r2, h0, h1, h2, h3⟩))
        · exact Or.inr (Or.inr (Or.inr ⟨h1, h2, h3⟩))
      · rcases hcats with hc | hc
        · exact Or.inl (by simp [hc])
        · exact Or.inr (by simp [hc])
      · simp only [lockAfterR, hlock]
        intro hcontra
        exact hme ⟨hcontra.1, hlock⟩
    · -- reader phase C: release
      rw [hprog] at hp
      simp only [List.cons.injEq] at hp
      obtain ⟨ha, hrest⟩ := hp
      subst ha
      refine ⟨?_, Or.inr (Or.inr (Or.inr ⟨by simp [hrest.symm], by simp [lockAfterR],
        by simpa using hobs⟩)), by simp [lockAfterR]⟩
      rcases hl with ⟨h1, h2, h3⟩ | ⟨h1, h2, h3⟩ | ⟨d, r2, h0, h1, h2, h3⟩ | ⟨h1, h2, h3⟩
      · exact Or.inl ⟨h1, h2, h3⟩
      · exact Or.inr (Or.inl ⟨h1, h2, h3⟩)
      · exact Or.inr (Or.inr (Or.inl ⟨d, r2, h0, h1, h2, h3⟩))
      · exact Or.inr (Or.inr (Or.inr ⟨h1, h2, h3⟩))
    · -- reader phase D: program exhausted, no step possible
      rw [hprog] at hp
      exact absurd hp (by simp)

theorem sysInv_reach (c0 entries : List (String × TrackInfo)) (s : CSys)
    (h : CReach (initSys c0 entries) s) : sysInv c0 entries s := by
  induction h with
  | refl => exact sysInv_init c0 entries
  | step hr hs ih => exact sysInv_step c0 entries _ _ ih hs

/-- C2: in every interleaving of one `loadTrackCatalog` (installing
`entries` over the previously installed catalog `c0`) with a concurrent
reader that observes the catalog under the shared `catalog_mutex`, the
reader observes nothing yet, the complete catalog of load `N` (`c0`), or
the complete catalog of load `N + 1` — never a partially populated
intermediate state, and never a mix of the two generations. -/
theorem reader_snapshot_atomic (c0 entries : List (String × TrackInfo)) (s : CSys)
    (h : CReach (initSys c0 entries) s) :
    s.observed = none ∨ s.observed = some c0 ∨ s.observed = some (foldCat entries) := by
  have hinv := sysInv_reach c0 entries s h
  rcases hinv.2.1 with ⟨_, _, h3⟩ | ⟨_, _, h3⟩ | ⟨_, _, h3⟩ | ⟨_, _, h3⟩
  · exact Or.inl h3
  · exact Or.inl h3
  · exact Or.inr h3
  · exact Or.inr h3

/-- C2 witness: the initial state of a concrete reload against a concrete
old catalog is reachable and satisfies the disjunction. -/
theorem reader_snapshot_atomic_witness :
    (initSys [("old", wTrack)] [("a", wTrack)]).observed = none
    ∨ (initSys [("old", wTrack)] [("a", wTrack)]).observed = some [("old", wTrack)]
    ∨ (initSys [("old", wTrack)] [("a", wTrack)]).observed
        = some (foldCat [("a", wTrack)]) :=
  reader_snapshot_atomic [("old", wTrack)] [("a", wTrack)] _ CReach.refl

end MusicServer
